import Mathlib

/-!
Verification of the AVI→MP4 batch video compressor (converter.py, utils.py,
progress.py, main.py) against its specification.

The embedding is shallow: Python strings are `List Char`, Python floats are
`ℚ` (the non-finite values `inf`/`nan` and exponent literals are outside the
model), a Python function that may raise is embedded in `Except (List Char)`
where `.error msg` marks an uncaught exception.  Subprocess and filesystem
behaviour is abstracted into explicit "world" records supplied as arguments.
-/

namespace Compressor

/-! ### Python string primitives -/

/-- Characters stripped by Python `str.strip()` (ASCII whitespace). -/
def isPySpace (c : Char) : Bool :=
  c == ' ' || c == '\t' || c == '\n' || c == '\r' || c == '\x0b' || c == '\x0c'

/-- Python `str.strip()`: remove whitespace at both ends. -/
def pyStrip (l : List Char) : List Char :=
  ((l.dropWhile isPySpace).reverse.dropWhile isPySpace).reverse

/-- Numeric value of a decimal digit character. -/
def digitVal (c : Char) : Nat := c.toNat - 48

/-- Natural number denoted by a run of decimal digits, most significant first. -/
def digitsVal (l : List Char) : Nat := l.foldl (fun n c => 10 * n + digitVal c) 0

/-- A nonempty all-digit string, or nothing. -/
def digitsToNat (ds : List Char) : Option Nat :=
  if !ds.isEmpty && ds.all Char.isDigit then some (digitsVal ds) else none

/-- CPython's digit-count limit for `int(str)`
(`sys.int_info.default_max_str_digits`): beyond 4300 digits the conversion
raises ValueError. -/
def maxStrDigits : Nat := 4300

/-- Model of Python `int(s)`: surrounding whitespace, an optional sign, then a
nonempty run of decimal digits, at most 4300 of them.  (Underscore digit
separators and non-ASCII digits are not modelled.)  `none` is a raised
`ValueError`. -/
def pyInt (l : List Char) : Option Int :=
  let s := pyStrip l
  if s.head? == some '-' then
    if s.tail.length ≤ maxStrDigits then (digitsToNat s.tail).map (fun n => -(n : Int))
    else none
  else if s.head? == some '+' then
    if s.tail.length ≤ maxStrDigits then (digitsToNat s.tail).map (fun n => (n : Int))
    else none
  else
    if s.length ≤ maxStrDigits then (digitsToNat s).map (fun n => (n : Int))
    else none

/-- The smallest integer magnitude on which CPython's int-to-float conversion
raises OverflowError: a double's largest finite value is 2^1024 − 2^971, and
round-half-to-even sends every magnitude from 2^1024 − 2^970 upward to
2^1024, i.e. to infinity, which the conversion reports as OverflowError. -/
def floatOverflowBound : Nat := 2 ^ 1024 - 2 ^ 970

/-- Unsigned part of a Python float literal: `d+`, `d+.d*` or `.d+`. -/
def pyFloatMag (s : List Char) : Option ℚ :=
  if s.count '.' = 0 then (digitsToNat s).map (fun n => (n : ℚ))
  else if s.count '.' = 1 then
    let ip := s.takeWhile (fun c => c != '.')
    let fp := (s.dropWhile (fun c => c != '.')).tail
    if (ip.all Char.isDigit && fp.all Char.isDigit) && !(ip.isEmpty && fp.isEmpty) then
      some ((digitsVal ip : ℚ) + (digitsVal fp : ℚ) / (10 : ℚ) ^ fp.length)
    else none
  else none

/-- Model of Python `float(s)`: surrounding whitespace, an optional sign, then
a finite decimal literal.  Exponent notation and the non-finite literals
`inf`/`nan` are outside the model.  `none` is a raised `ValueError`. -/
def pyFloat (l : List Char) : Option ℚ :=
  let s := pyStrip l
  if s.head? == some '-' then (pyFloatMag s.tail).map (fun q => -q)
  else if s.head? == some '+' then pyFloatMag s.tail
  else pyFloatMag s

/-- Python `str.split(sep)` with a one-character separator: no merging of
adjacent separators, and the empty string splits to `['']`. -/
def pySplit (sep : Char) : List Char → List (List Char)
  | [] => [[]]
  | c :: rest =>
    if c == sep then [] :: pySplit sep rest
    else
      match pySplit sep rest with
      | [] => [[c]]
      | seg :: segs => (c :: seg) :: segs

/-! ### The three regular expressions of converter.py

Each pattern is deterministic (fixed-width groups, greedy runs followed by a
character the run cannot contain), so a functional matcher at each start
position composed with a left-to-right scan gives exactly Python
`re.search`'s leftmost match. -/

/-- Match `time=(\d{2}):(\d{2}):(\d{2})\.(\d+)` at the head of the list,
returning the four captured groups as digit strings; `\d+` is greedy, so the
fourth group is the maximal digit run. -/
def matchTimeAt (l : List Char) : Option (List Char × List Char × List Char × List Char) :=
  match l with
  | 't' :: 'i' :: 'm' :: 'e' :: '=' :: a :: b :: ':' :: c :: d :: ':' :: e :: f :: '.' :: rest =>
    if a.isDigit && b.isDigit && c.isDigit && d.isDigit && e.isDigit && f.isDigit then
      if (rest.takeWhile Char.isDigit).isEmpty then none
      else some ([a, b], [c, d], [e, f], rest.takeWhile Char.isDigit)
    else none
  | _ => none

/-- Characters matched by the class `[\d.]`. -/
def isDigitDot (c : Char) : Bool := c.isDigit || c == '.'

/-- Match `speed=\s*([\d.]+)x` at the head of the list, returning the group. -/
def matchSpeedAt (l : List Char) : Option (List Char) :=
  match l with
  | 's' :: 'p' :: 'e' :: 'e' :: 'd' :: '=' :: rest =>
    let r1 := rest.dropWhile isPySpace
    let run := r1.takeWhile isDigitDot
    if !run.isEmpty && (r1.dropWhile isDigitDot).head? == some 'x' then some run
    else none
  | _ => none

/-- Match `fps=\s*([\d.]+)` at the head of the list, returning the group. -/
def matchFpsAt (l : List Char) : Option (List Char) :=
  match l with
  | 'f' :: 'p' :: 's' :: '=' :: rest =>
    let run := (rest.dropWhile isPySpace).takeWhile isDigitDot
    if run.isEmpty then none else some run
  | _ => none

/-- `re.search`: try the matcher at each start position, left to right. -/
def searchWith (m : List Char → Option β) : List Char → Option β
  | [] => none
  | c :: rest =>
    match m (c :: rest) with
    | some r => some r
    | none => searchWith m rest

def searchTime (l : List Char) : Option (List Char × List Char × List Char × List Char) :=
  searchWith matchTimeAt l

def searchSpeed (l : List Char) : Option (List Char) :=
  searchWith matchSpeedAt l

def searchFps (l : List Char) : Option (List Char) :=
  searchWith matchFpsAt l

/-! ### Progress events -/

/-- Embedding of the `ConversionProgress` dataclass (converter.py 28-36). -/
structure ConversionProgress where
  percent : ℚ
  speed : List Char
  fps : List Char
  eta : List Char
  current_time : ℚ
  total_duration : ℚ
  deriving Repr, DecidableEq

/-- Python `f"{n:02d}"` (exact for width 2: zero-pad a nonnegative value to
two characters; a negative value already fills the width with its sign). -/
def fmt02 (n : Int) : List Char :=
  let body := Nat.toDigits 10 n.natAbs
  let s := if n < 0 then '-' :: body else body
  if s.length < 2 then List.replicate (2 - s.length) '0' ++ s else s

/-- `f"{mins:02d}:{secs:02d}"` with `mins = int(r // 60)` and
`secs = int(r % 60)` (converter.py 216-218): Python float floor-division and
nonnegative modulo, truncated to int. -/
def fmtMinSec (r : ℚ) : List Char :=
  let mins : Int := ⌊r / 60⌋
  let secs : Int := ⌊r⌋ - 60 * mins
  fmt02 mins ++ ':' :: fmt02 secs

/-- Embedding of `parse_ffmpeg_progress` (converter.py 170-229) in the
exception monad.  `int()` on the regex groups runs unprotected (a failure
would raise); the single `try/except ValueError` of the source, around
`float(speed)`, is mirrored by the `match` on `pyFloat` whose `none` arm
falls back to an empty ETA. -/
def parse_ffmpeg_progressE (line : List Char) (total_duration : ℚ) :
    Except (List Char) (Option ConversionProgress) :=
  match searchTime line with
  | none => .ok none
  | some (g1, g2, g3, g4) =>
    match pyInt g1, pyInt g2, pyInt g3,
        (if g4.length ≥ 2 then pyInt (g4.take 2) else some 0) with
    | some hours, some minutes, some seconds, some centiseconds =>
      let current_time : ℚ :=
        (hours : ℚ) * 3600 + (minutes : ℚ) * 60 + (seconds : ℚ) + (centiseconds : ℚ) / 100
      let percent : ℚ :=
        if total_duration > 0 then min (current_time / total_duration * 100) 100 else 0
      let speed : List Char :=
        match searchSpeed line with
        | some g => g ++ ['x']
        | none => []
      let fps : List Char :=
        match searchFps line with
        | some g => g
        | none => []
      let eta : List Char :=
        if total_duration > 0 then
          match searchSpeed line with
          | some g =>
            match pyFloat g with
            | some speed_val =>
              if speed_val > 0 then
                let remaining_time := (total_duration - current_time) / speed_val
                if remaining_time > 0 then fmtMinSec remaining_time else []
              else []
            | none => []
          | none => []
        else []
      .ok (some ⟨percent, speed, fps, eta, current_time, total_duration⟩)
    | _, _, _, _ => .error ("ValueError".data)

/-- The non-raising view of `parse_ffmpeg_progress` (the claim about C8 shows
the exception arm is unreachable). -/
def parse_ffmpeg_progress (line : List Char) (total_duration : ℚ) :
    Option ConversionProgress :=
  match parse_ffmpeg_progressE line total_duration with
  | .ok o => o
  | .error _ => none

/-! ### The structured-protocol (stdout) reader of `convert_video` -/

/-- One iteration of the stdout loop of `convert_video` (converter.py
321-370), with a progress callback present.  The state is `last_progress`;
the returned list holds the values handed to the callback, as immutable
snapshots (the Python object is mutated in place, but every consumer reads
the fields before the next line is processed).  `.error` marks an uncaught
exception; the source's `try/except (ValueError, IndexError)` blocks are
mirrored by `match` arms that swallow the failure.  `replace('x','')`
removes every `x`.  One exception escapes that handler: at converter.py 332
the int `hours*3600 + minutes*60` is added to the float `seconds`, which
converts the int to a float and raises OverflowError when its magnitude
reaches `floatOverflowBound` — OverflowError is not in the
`(ValueError, IndexError)` tuple, so it aborts the stream. -/
def stdoutStepE (total_duration : ℚ) (last : Option ConversionProgress)
    (line : List Char) :
    Except (List Char) (Option ConversionProgress × List ConversionProgress) :=
  if ("out_time=".data).isPrefixOf line then
    match (pySplit '=' line).get? 1 with
    | none => .error ("IndexError".data)
    | some seg =>
      let time_str := pyStrip seg
      if !time_str.isEmpty && time_str != "N/A".data then
        let parts := pySplit ':' time_str
        if parts.length ≥ 3 then
          match pyInt (parts.getD 0 []), pyInt (parts.getD 1 []), pyFloat (parts.getD 2 []) with
          | some hours, some minutes, some seconds =>
            if (hours * 3600 + minutes * 60).natAbs < floatOverflowBound then
              let current_time : ℚ := ((hours * 3600 + minutes * 60 : Int) : ℚ) + seconds
              if total_duration > 0 then
                let percent := min (current_time / total_duration * 100) 100
                let p : ConversionProgress :=
                  ⟨percent, [], [], [], current_time, total_duration⟩
                .ok (some p, [p])
              else .ok (last, [])
            else .error ("OverflowError".data)
          | _, _, _ => .ok (last, [])
        else .ok (last, [])
      else .ok (last, [])
  else if ("speed=".data).isPrefixOf line then
    match (pySplit '=' line).get? 1 with
    | none => .error ("IndexError".data)
    | some seg =>
      let speed_val := pyStrip seg
      match last with
      | some p =>
        if !speed_val.isEmpty && speed_val != "N/A".data then
          let p1 := { p with speed := speed_val }
          let p2 :=
            match pyFloat (speed_val.filter (fun c => c != 'x')) with
            | some speed_num =>
              if speed_num > 0 ∧ total_duration > 0 then
                let remaining := (total_duration - p1.current_time) / speed_num
                if remaining > 0 then { p1 with eta := fmtMinSec remaining } else p1
              else p1
            | none => p1
          .ok (some p2, [p2])
        else .ok (last, [])
      | none => .ok (last, [])
  else if ("fps=".data).isPrefixOf line then
    match (pySplit '=' line).get? 1 with
    | none => .error ("IndexError".data)
    | some seg =>
      let fps_val := pyStrip seg
      match last with
      | some p =>
        if !fps_val.isEmpty && fps_val != "N/A".data then
          .ok (some { p with fps := fps_val }, [])
        else .ok (last, [])
      | none => .ok (last, [])
  else .ok (last, [])

/-- The stdout loop over a whole list of lines, threading `last_progress`
and concatenating the emitted events. -/
def stdoutLoopE (total_duration : ℚ) :
    Option ConversionProgress → List (List Char) →
    Except (List Char) (Option ConversionProgress × List ConversionProgress)
  | last, [] => .ok (last, [])
  | last, line :: rest =>
    match stdoutStepE total_duration last line with
    | .error e => .error e
    | .ok (last1, evs) =>
      match stdoutLoopE total_duration last1 rest with
      | .error e => .error e
      | .ok (last2, evs2) => .ok (last2, evs ++ evs2)

/-- The events the stdout reader delivers to the callback over a run. -/
def stdoutEvents (total_duration : ℚ) (lines : List (List Char)) :
    List ConversionProgress :=
  match stdoutLoopE total_duration none lines with
  | .ok (_, evs) => evs
  | .error _ => []

/-! ### Duration probe -/

/-- Abstract behaviour of the one-shot ffprobe subprocess: either
`subprocess.run` itself raised, or the process completed with an exit code
and captured stdout text. -/
inductive ProbeOutcome where
  | exn (msg : List Char)
  | completed (returncode : Int) (stdout : List Char)
  deriving Repr, DecidableEq

/-- Embedding of `get_video_duration` (converter.py 139-167).  The whole body
sits in a `try/except Exception: pass` falling through to `return 0`, so a
probe exception, a nonzero exit, an empty stripped stdout and an unparsable
stdout all yield 0. -/
def get_video_duration (probe : ProbeOutcome) : ℚ :=
  match probe with
  | .exn _ => 0
  | .completed returncode out =>
    if returncode = 0 ∧ ¬(pyStrip out).isEmpty then
      match pyFloat (pyStrip out) with
      | some v => v
      | none => 0
    else 0

/-! ### The conversion orchestrator -/

/-- Embedding of the `ConversionResult` dataclass (converter.py 16-25).
Paths are the file names as strings; `duration` is the wall-clock span,
supplied by the world since real time is not modelled. -/
structure ConversionResult where
  success : Bool
  input_file : List Char
  output_file : List Char
  input_size : Nat
  output_size : Nat
  duration : ℚ
  error_message : List Char
  deriving Repr, DecidableEq

/-- Behaviour of a successfully launched encoder subprocess and of the
filesystem around it: the lines appearing on the two pipes, the exit code,
whether the output path exists once the process has terminated (and its size
then), and whether the `unlink` call on the output path succeeds (its
exceptions are swallowed by the source). -/
structure ProcWorld where
  stdoutLines : List (List Char)
  stderrLines : List (List Char)
  returncode : Int
  outputExistsAtEnd : Bool
  outputSizeAtEnd : Nat
  unlinkOk : Bool
  deriving Repr, DecidableEq

/-- The world one call of `convert_video` runs against.  `statResult` is
`input_file.stat().st_size` (line 255, which may raise); `launch` is the
`subprocess.Popen` call (`.error` = the constructor raised).  `elapsed`
stands for the `time.time()` differences.  With `stdout=PIPE`,
`process.stdout` is never `None`, so the dead guard at lines 307-319 has no
counterpart here.  A pre-existing file at the output path is not modelled:
when the launch fails, nothing was written and the output path is absent. -/
structure World where
  inputFile : List Char
  outputFile : List Char
  statResult : Except (List Char) Nat
  probe : ProbeOutcome
  launch : Except (List Char) ProcWorld
  elapsed : ℚ
  deriving Repr

/-- What one call leaves behind: the returned `ConversionResult`, whether the
output path exists at the moment of return, and the events delivered to the
progress callback (diagnostic-thread events first, then structured-protocol
events; the spec leaves cross-stream interleaving unspecified). -/
structure ConvOutcome where
  result : ConversionResult
  outputExists : Bool
  events : List ConversionProgress
  deriving Repr, DecidableEq

/-- Python `lst[-10:]`. -/
def lastN (n : Nat) (l : List α) : List α := l.drop (l.length - n)

/-- `''.join(error_output[-10:]) if error_output else "Error desconocido"`,
then `.strip()` (converter.py 389 and 404). -/
def errMsgOf (stderrLines : List (List Char)) : List Char :=
  if stderrLines.isEmpty then ("Error desconocido".data)
  else pyStrip ((lastN 10 stderrLines).foldr (· ++ ·) [])

/-- Embedding of `convert_video` (converter.py 232-417).  `stat` runs before
the `try:` block, so its exception propagates (`.error`); everything from
`Popen` on is protected, a raise there yielding a failure result with the
exception text.  On the classification failure branch an existing output is
unlinked with the unlink's own exceptions swallowed.  The structured-stream
reader is taken in its collapsing view (`stdoutEvents`): this
conversion-level model covers runs against the encoder's own `-progress`
protocol, whose `out_time` components are bounded (`HH:MM:SS.ffffff`), so
the reader completes without the OverflowError that arbitrary stream content
can force; that uncaught-exception path is modelled faithfully in
`stdoutStepE` and settled by the progress-parsing claim — on it the source
would skip `process.wait()` and return, via the outer `except`, a failure
result without deleting the output, like the launch-failure arm here. -/
def convert_video (w : World) : Except (List Char) ConvOutcome :=
  match w.statResult with
  | .error e => .error e
  | .ok input_size =>
    let total_duration := get_video_duration w.probe
    match w.launch with
    | .error e =>
      .ok ⟨⟨false, w.inputFile, w.outputFile, input_size, 0, w.elapsed, e⟩, false, []⟩
    | .ok proc =>
      let events :=
        proc.stderrLines.filterMap (fun l => parse_ffmpeg_progress l total_duration) ++
          stdoutEvents total_duration proc.stdoutLines
      if proc.returncode = 0 ∧ proc.outputExistsAtEnd then
        .ok ⟨⟨true, w.inputFile, w.outputFile, input_size, proc.outputSizeAtEnd,
          w.elapsed, []⟩, true, events⟩
      else
        .ok ⟨⟨false, w.inputFile, w.outputFile, input_size, 0, w.elapsed,
          errMsgOf proc.stderrLines⟩,
          (if proc.outputExistsAtEnd then !proc.unlinkOk else false), events⟩

/-! ### File discovery (utils.py) -/

/-- A directory entry as seen by `Path.iterdir()`: final name component plus
whether it is a regular file. -/
structure DirEntry where
  name : List Char
  isFile : Bool
  deriving Repr, DecidableEq

/-- `pathlib.PurePath.suffix`: the tail of the name from its last dot, when
that dot is neither the first nor the last character; otherwise empty. -/
def pathSuffix (name : List Char) : List Char :=
  let revToDot := name.reverse.dropWhile (fun c => c != '.')
  match revToDot with
  | [] => []
  | _ :: _ =>
    let i := revToDot.length - 1
    if 0 < i ∧ i < name.length - 1 then name.drop i else []

/-- Python `str.lower()`, characterwise. -/
def lowerStr (l : List Char) : List Char := l.map Char.toLower

/-- The filter of utils.py line 35:
`file.is_file() and file.suffix.lower() == '.avi'`. -/
def isAviFile (e : DirEntry) : Bool :=
  e.isFile && lowerStr (pathSuffix e.name) == ".avi".data

/-- Python string `<=`: lexicographic by code point. -/
def lexLe : List Char → List Char → Bool
  | [], _ => true
  | _ :: _, [] => false
  | a :: as, b :: bs => if a == b then lexLe as bs else decide (a < b)

/-- The sort order of utils.py line 39: `key=lambda x: x.name.lower()`. -/
def nameLe (a b : DirEntry) : Bool := lexLe (lowerStr a.name) (lowerStr b.name)

/-- Embedding of `find_avi_files` (utils.py 20-40): keep the regular files
whose lowercased suffix is `.avi`, in directory order, then sort by
lowercased name.  Python `list.sort` is a stable sort, as is `mergeSort`. -/
def find_avi_files (entries : List DirEntry) : List DirEntry :=
  (entries.filter isAviFile).mergeSort nameLe

/-! ### Display clamping (progress.py) -/

/-- The percent `create_progress_bar` (progress.py 109-125) actually renders:
`max(0, min(100, percent))`. -/
def create_progress_bar_percent (percent : ℚ) : ℚ := max 0 (min 100 percent)

/-- `filled = int(width * percent / 100)` after the clamp. -/
def create_progress_bar_filled (percent : ℚ) (width : Nat := 40) : Int :=
  ((width : ℚ) * create_progress_bar_percent percent / 100).floor

/-! ### Observation views of `parse_ffmpeg_progress`

Field-by-field views of the value the parser builds, stated over the regex
groups; the theorem `parse_spec` proves the parser produces exactly these. -/

/-- `hours*3600 + minutes*60 + seconds + centiseconds/100` where the
centiseconds are the first two digits of the fourth group (0 if it is
shorter). -/
def timeVal (g1 g2 g3 g4 : List Char) : ℚ :=
  (digitsVal g1 : ℚ) * 3600 + (digitsVal g2 : ℚ) * 60 + (digitsVal g3 : ℚ) +
    (if 2 ≤ g4.length then (digitsVal (g4.take 2) : ℚ) else 0) / 100

/-- The percent computation of converter.py 194-198. -/
def percentOf (dur t : ℚ) : ℚ := if dur > 0 then min (t / dur * 100) 100 else 0

/-- The speed field: the matched group with `x` appended, or empty. -/
def speedField (line : List Char) : List Char :=
  match searchSpeed line with
  | some g => g ++ ['x']
  | none => []

/-- The fps field: the matched group, or empty. -/
def fpsField (line : List Char) : List Char :=
  match searchFps line with
  | some g => g
  | none => []

/-- The ETA field of converter.py 209-220. -/
def etaField (line : List Char) (dur t : ℚ) : List Char :=
  if dur > 0 then
    match searchSpeed line with
    | some g =>
      match pyFloat g with
      | some sv =>
        if sv > 0 then (if (dur - t) / sv > 0 then fmtMinSec ((dur - t) / sv) else [])
        else []
      | none => []
    | none => []
  else []

/-! ### Concrete worlds and lines used as witnesses and counterexamples -/

/-- The spec's diagnostic-stream scenario line. -/
def scenarioLine : List Char :=
  "frame=100 fps=30.0 q=28.0 size=1024kB time=00:00:10.00 bitrate=838.9kbits/s speed=2.0x".data

/-- A hostile structured-protocol line carrying a 400-digit hour count:
`int()` parses it (400 ≤ 4300 digits), and the int-to-float conversion in
`hours * 3600 + minutes * 60 + seconds` at converter.py 332 then raises an
uncaught OverflowError (400 digits ≫ the ≈309-digit double range). -/
def overflowLine : List Char :=
  ("out_time=".data) ++ List.replicate 400 '9' ++ (":00:00.0".data)

/-- A clean successful encoder run: exit 0, output present with 5,000,000
bytes (input 50,000,000 bytes). -/
def procOk : ProcWorld := ⟨[], [], 0, true, 5000000, true⟩

def worldOk : World :=
  ⟨"video.avi".data, "video.mp4".data, .ok 50000000, .completed 0 ("100.0".data), .ok procOk, 30⟩

/-- A failing encoder run whose partial output cannot be unlinked
(e.g. `PermissionError`, swallowed at converter.py 392-395). -/
def procStuckOutput : ProcWorld :=
  ⟨[], ["video.avi: Invalid data found when processing input\n".data], 1, true, 4096, false⟩

def worldStuckOutput : World :=
  ⟨"video.avi".data, "video.mp4".data, .ok 50000000, .completed 0 ("100.0".data),
    .ok procStuckOutput, 30⟩

/-- A failing encoder run whose partial output unlinks fine. -/
def procFail : ProcWorld :=
  ⟨[], ["video.avi: Invalid data found when processing input\n".data], 1, true, 4096, true⟩

def worldFail : World :=
  ⟨"video.avi".data, "video.mp4".data, .ok 50000000, .completed 0 ("100.0".data), .ok procFail, 30⟩

/-- `input_file.stat()` raises (file vanished between discovery and
conversion): converter.py line 255 runs before the `try:`. -/
def worldStatRaises : World :=
  ⟨"video.avi".data, "video.mp4".data,
    .error ("PermissionError: [Errno 13] Permission denied".data),
    .completed 0 ("100.0".data), .ok procOk, 30⟩

/-- `subprocess.Popen` raises (encoder binary missing mid-run). -/
def worldLaunchFails : World :=
  ⟨"video.avi".data, "video.mp4".data, .ok 50000000, .completed 0 ("100.0".data),
    .error ("FileNotFoundError: ffmpeg".data), 30⟩

/-- Two listings of the same two files whose names differ only by case. -/
def dirUpperFirst : List DirEntry := [⟨"A.avi".data, true⟩, ⟨"a.avi".data, true⟩]

def dirLowerFirst : List DirEntry := [⟨"a.avi".data, true⟩, ⟨"A.avi".data, true⟩]

/-- A mixed listing: an upper-case AVI, a lower-case AVI, a text file, and a
directory whose name ends in .avi. -/
def dirMixed : List DirEntry :=
  [⟨"B.AVI".data, true⟩, ⟨"a.avi".data, true⟩, ⟨"notes.txt".data, true⟩,
    ⟨"c.avi".data, false⟩]

/-! ### Helper lemmas -/

theorem isPySpace_eq_false_of_isDigit {c : Char} (h : c.isDigit = true) :
    isPySpace c = false := by
  by_contra hs
  rw [Bool.not_eq_false, isPySpace] at hs
  simp only [Bool.or_eq_true, beq_iff_eq] at hs
  rcases hs with ((((rfl | rfl) | rfl) | rfl) | rfl) | rfl <;> exact absurd h (by decide)

theorem dropWhile_eq_self_of_forall {p : Char → Bool} {l : List Char}
    (h : ∀ c ∈ l, p c = false) : l.dropWhile p = l := by
  cases l with
  | nil => rfl
  | cons c cs => simp [List.dropWhile_cons, h c (List.mem_cons_self c cs)]

theorem pyStrip_eq_self {l : List Char} (h : ∀ c ∈ l, isPySpace c = false) :
    pyStrip l = l := by
  unfold pyStrip
  rw [dropWhile_eq_self_of_forall h,
    dropWhile_eq_self_of_forall (fun c hc => h c (List.mem_reverse.mp hc)),
    List.reverse_reverse]

theorem digitsToNat_eq_some {ds : List Char} (hne : ds ≠ [])
    (hall : ∀ c ∈ ds, c.isDigit = true) : digitsToNat ds = some (digitsVal ds) := by
  unfold digitsToNat
  rw [if_pos]
  cases ds with
  | nil => exact absurd rfl hne
  | cons d tl =>
    simp only [List.isEmpty_cons, Bool.not_false, Bool.true_and, List.all_eq_true]
    exact hall

theorem pyInt_digits {ds : List Char} (hne : ds ≠ [])
    (hall : ∀ c ∈ ds, c.isDigit = true) (hlen : ds.length ≤ maxStrDigits) :
    pyInt ds = some ((digitsVal ds : Int)) := by
  have hs : pyStrip ds = ds :=
    pyStrip_eq_self (fun c hc => isPySpace_eq_false_of_isDigit (hall c hc))
  cases ds with
  | nil => exact absurd rfl hne
  | cons d tl =>
    have hd : d.isDigit = true := hall d (List.mem_cons_self d tl)
    have hminus : d ≠ '-' := by rintro rfl; exact absurd hd (by decide)
    have hplus : d ≠ '+' := by rintro rfl; exact absurd hd (by decide)
    unfold pyInt
    rw [hs]
    simp only [List.head?_cons, beq_iff_eq, Option.some.injEq]
    rw [if_neg hminus, if_neg hplus, if_pos hlen, digitsToNat_eq_some hne hall]
    rfl

theorem pyFloat_digits {ds : List Char} (hne : ds ≠ [])
    (hall : ∀ c ∈ ds, c.isDigit = true) : pyFloat ds = some ((digitsVal ds : ℚ)) := by
  have hs : pyStrip ds = ds :=
    pyStrip_eq_self (fun c hc => isPySpace_eq_false_of_isDigit (hall c hc))
  cases ds with
  | nil => exact absurd rfl hne
  | cons d tl =>
    have hd : d.isDigit = true := hall d (List.mem_cons_self d tl)
    have hminus : d ≠ '-' := by rintro rfl; exact absurd hd (by decide)
    have hplus : d ≠ '+' := by rintro rfl; exact absurd hd (by decide)
    have hdot : (d :: tl).count '.' = 0 := by
      rw [List.count_eq_zero]
      intro hdotmem
      exact absurd (hall '.' hdotmem) (by decide)
    unfold pyFloat pyFloatMag
    rw [hs]
    simp only [List.head?_cons, beq_iff_eq, Option.some.injEq]
    rw [if_neg hminus, if_neg hplus, if_pos hdot, digitsToNat_eq_some hne hall]
    rfl

theorem matchTimeAt_groups {l g1 g2 g3 g4 : List Char}
    (h : matchTimeAt l = some (g1, g2, g3, g4)) :
    (g1.length = 2 ∧ ∀ c ∈ g1, c.isDigit = true) ∧
    (g2.length = 2 ∧ ∀ c ∈ g2, c.isDigit = true) ∧
    (g3.length = 2 ∧ ∀ c ∈ g3, c.isDigit = true) ∧
    (g4 ≠ [] ∧ ∀ c ∈ g4, c.isDigit = true) := by
  unfold matchTimeAt at h
  split at h
  case _ a b c d e f rest =>
    split at h
    case isTrue hdigits =>
      simp only [Bool.and_eq_true] at hdigits
      obtain ⟨⟨⟨⟨⟨ha, hb⟩, hc⟩, hd⟩, he⟩, hf⟩ := hdigits
      split at h
      case isTrue => exact absurd h (by simp)
      case isFalse hg4 =>
        simp only [Option.some.injEq, Prod.mk.injEq] at h
        obtain ⟨h1, h2, h3, h4⟩ := h
        subst h1; subst h2; subst h3; subst h4
        refine ⟨⟨rfl, ?_⟩, ⟨rfl, ?_⟩, ⟨rfl, ?_⟩,
          ⟨by simpa using hg4, ?_⟩⟩
        · intro x hx
          rw [List.mem_cons, List.mem_singleton] at hx
          rcases hx with rfl | rfl
          · exact ha
          · exact hb
        · intro x hx
          rw [List.mem_cons, List.mem_singleton] at hx
          rcases hx with rfl | rfl
          · exact hc
          · exact hd
        · intro x hx
          rw [List.mem_cons, List.mem_singleton] at hx
          rcases hx with rfl | rfl
          · exact he
          · exact hf
        · intro x hx
          exact List.mem_takeWhile_imp hx
    case isFalse => exact absurd h (by simp)
  case _ => exact absurd h (by simp)

theorem searchWith_eq_some {m : List Char → Option β} {l : List Char} {r : β}
    (h : searchWith m l = some r) : ∃ s, m s = some r := by
  induction l with
  | nil => simp [searchWith] at h
  | cons c cs ih =>
    rw [searchWith] at h
    cases hm : m (c :: cs) with
    | some r0 => rw [hm] at h; exact ⟨c :: cs, hm.trans h⟩
    | none => rw [hm] at h; exact ih h

theorem searchTime_groups {l g1 g2 g3 g4 : List Char}
    (h : searchTime l = some (g1, g2, g3, g4)) :
    (g1.length = 2 ∧ ∀ c ∈ g1, c.isDigit = true) ∧
    (g2.length = 2 ∧ ∀ c ∈ g2, c.isDigit = true) ∧
    (g3.length = 2 ∧ ∀ c ∈ g3, c.isDigit = true) ∧
    (g4 ≠ [] ∧ ∀ c ∈ g4, c.isDigit = true) := by
  obtain ⟨s, hs⟩ := searchWith_eq_some h
  exact matchTimeAt_groups hs

/-- The parser produces exactly the field-by-field views whenever the time
regex matches. -/
theorem parse_spec {line g1 g2 g3 g4 : List Char} (dur : ℚ)
    (hst : searchTime line = some (g1, g2, g3, g4)) :
    parse_ffmpeg_progressE line dur =
      .ok (some ⟨percentOf dur (timeVal g1 g2 g3 g4), speedField line, fpsField line,
        etaField line dur (timeVal g1 g2 g3 g4), timeVal g1 g2 g3 g4, dur⟩) := by
  obtain ⟨⟨hlen1, hall1⟩, ⟨hlen2, hall2⟩, ⟨hlen3, hall3⟩, ⟨hne4, hall4⟩⟩ := searchTime_groups hst
  have hne1 : g1 ≠ [] := by intro hnil; rw [hnil] at hlen1; simp at hlen1
  have hne2 : g2 ≠ [] := by intro hnil; rw [hnil] at hlen2; simp at hlen2
  have hne3 : g3 ≠ [] := by intro hnil; rw [hnil] at hlen3; simp at hlen3
  have hmax1 : g1.length ≤ maxStrDigits := by rw [hlen1]; decide
  have hmax2 : g2.length ≤ maxStrDigits := by rw [hlen2]; decide
  have hmax3 : g3.length ≤ maxStrDigits := by rw [hlen3]; decide
  unfold parse_ffmpeg_progressE
  rw [hst]
  dsimp only
  rw [pyInt_digits hne1 hall1 hmax1, pyInt_digits hne2 hall2 hmax2,
    pyInt_digits hne3 hall3 hmax3]
  have hcentis : (if g4.length ≥ 2 then pyInt (g4.take 2) else some 0) =
      some ((if 2 ≤ g4.length then (digitsVal (g4.take 2) : Int) else 0)) := by
    by_cases hlen : 2 ≤ g4.length
    · have htne : g4.take 2 ≠ [] := by
        cases g4 with
        | nil => exact absurd rfl hne4
        | cons x xs => simp [List.take]
      have htall : ∀ c ∈ g4.take 2, c.isDigit = true :=
        fun c hc => hall4 c (List.mem_of_mem_take hc)
      have htlen : (g4.take 2).length ≤ maxStrDigits := by
        have := List.length_take_le 2 g4
        unfold maxStrDigits
        omega
      rw [if_pos hlen, if_pos hlen, pyInt_digits htne htall htlen]
    · rw [if_neg hlen, if_neg hlen]
  rw [hcentis]
  unfold percentOf speedField fpsField etaField timeVal
  by_cases hlen : 2 ≤ g4.length <;>
    simp [hlen, Int.cast_natCast]

theorem pySplit_ne_nil (sep : Char) (l : List Char) : pySplit sep l ≠ [] := by
  cases l with
  | nil => simp [pySplit]
  | cons c cs =>
    unfold pySplit
    split
    · simp
    · split <;> simp

theorem pySplit_length_ge_two {sep : Char} {l : List Char} (h : sep ∈ l) :
    2 ≤ (pySplit sep l).length := by
  induction l with
  | nil => cases h
  | cons c cs ih =>
    unfold pySplit
    by_cases hc : (c == sep) = true
    · rw [if_pos hc]
      have hpos : 0 < (pySplit sep cs).length :=
        List.length_pos.mpr (pySplit_ne_nil sep cs)
      simp only [List.length_cons]
      omega
    · rw [if_neg hc]
      have hmem : sep ∈ cs := by
        rcases List.mem_cons.mp h with rfl | hm
        · exact absurd (beq_self_eq_true sep) (by exact hc)
        · exact hm
      have h2 := ih hmem
      cases hps : pySplit sep cs with
      | nil => exact absurd hps (pySplit_ne_nil sep cs)
      | cons seg segs =>
        rw [hps] at h2
        simp only [List.length_cons] at h2 ⊢
        omega

theorem pySplit_get_one_of_mem {sep : Char} {l : List Char} (h : sep ∈ l) :
    ∃ seg, (pySplit sep l).get? 1 = some seg := by
  have h2 := pySplit_length_ge_two h
  cases hg : (pySplit sep l).get? 1 with
  | none =>
    rw [List.get?_eq_none] at hg
    omega
  | some seg => exact ⟨seg, rfl⟩

theorem mem_of_isPrefixOf {pre line : List Char} (hp : pre.isPrefixOf line = true)
    (c : Char) (hc : c ∈ pre) : c ∈ line := by
  have h : pre <+: line := List.isPrefixOf_iff_prefix.mp hp
  exact h.sublist.mem hc

theorem parseE_isOk (line : List Char) (dur : ℚ) :
    (parse_ffmpeg_progressE line dur).isOk = true := by
  cases hst : searchTime line with
  | none =>
    unfold parse_ffmpeg_progressE
    rw [hst]
    rfl
  | some g =>
    obtain ⟨g1, g2, g3, g4⟩ := g
    rw [parse_spec dur hst]
    rfl

/-- A structured-protocol step either succeeds or raises exactly the
OverflowError of converter.py 332: every ValueError/IndexError path is
caught, and nothing else can escape the handler. -/
theorem stdoutStepE_ok_or_overflow (dur : ℚ) (last : Option ConversionProgress)
    (line : List Char) :
    (stdoutStepE dur last line).isOk = true ∨
      stdoutStepE dur last line = .error ("OverflowError".data) := by
  unfold stdoutStepE
  split
  case isTrue h1 =>
    obtain ⟨seg, hg⟩ :=
      pySplit_get_one_of_mem (mem_of_isPrefixOf h1 '=' (by decide))
    rw [hg]
    dsimp only
    repeat' split
    all_goals first | exact Or.inl rfl | exact Or.inr rfl
  case isFalse h1 =>
    split
    case isTrue h2 =>
      obtain ⟨seg, hg⟩ :=
        pySplit_get_one_of_mem (mem_of_isPrefixOf h2 '=' (by decide))
      rw [hg]
      dsimp only
      repeat' split
      all_goals exact Or.inl rfl
    case isFalse h2 =>
      split
      case isTrue h3 =>
        obtain ⟨seg, hg⟩ :=
          pySplit_get_one_of_mem (mem_of_isPrefixOf h3 '=' (by decide))
        rw [hg]
        dsimp only
        repeat' split
        all_goals exact Or.inl rfl
      case isFalse h3 => exact Or.inl rfl

/-- The only raising path of a structured-protocol step: the message is
OverflowError, the line is an `out_time` line, and its hour and minute
fields parse to an int whose magnitude, as |hours·3600 + minutes·60|,
reaches the int-to-float overflow cutoff. -/
theorem stdoutStepE_error_overflow {dur : ℚ} {last : Option ConversionProgress}
    {line e : List Char}
    (h : stdoutStepE dur last line = .error e) :
    e = "OverflowError".data ∧
    ("out_time=".data).isPrefixOf line = true ∧
    ∃ seg hours minutes,
      (pySplit '=' line).get? 1 = some seg ∧
      pyInt ((pySplit ':' (pyStrip seg)).getD 0 []) = some hours ∧
      pyInt ((pySplit ':' (pyStrip seg)).getD 1 []) = some minutes ∧
      floatOverflowBound ≤ (hours * 3600 + minutes * 60).natAbs := by
  unfold stdoutStepE at h
  split at h
  case isTrue h1 =>
    obtain ⟨seg, hg⟩ :=
      pySplit_get_one_of_mem (mem_of_isPrefixOf h1 '=' (by decide))
    rw [hg] at h
    dsimp only at h
    split at h
    case isTrue hcond =>
      split at h
      case isTrue hlen =>
        cases hp1 : pyInt ((pySplit ':' (pyStrip seg)).getD 0 []) with
        | none =>
          rw [hp1] at h
          exact absurd h (by simp)
        | some hours =>
          rw [hp1] at h
          cases hp2 : pyInt ((pySplit ':' (pyStrip seg)).getD 1 []) with
          | none =>
            rw [hp2] at h
            exact absurd h (by simp)
          | some minutes =>
            rw [hp2] at h
            cases hp3 : pyFloat ((pySplit ':' (pyStrip seg)).getD 2 []) with
            | none =>
              rw [hp3] at h
              exact absurd h (by simp)
            | some seconds =>
              rw [hp3] at h
              dsimp only at h
              split at h
              case isTrue hov =>
                split at h <;> exact absurd h (by simp)
              case isFalse hov =>
                rw [Except.error.injEq] at h
                exact ⟨h.symm, h1, seg, hours, minutes, hg, hp1, hp2,
                  Nat.le_of_not_lt hov⟩
      case isFalse hlen => exact absurd h (by simp)
    case isFalse hcond => exact absurd h (by simp)
  case isFalse h1 =>
    split at h
    case isTrue h2 =>
      obtain ⟨seg, hg⟩ :=
        pySplit_get_one_of_mem (mem_of_isPrefixOf h2 '=' (by decide))
      rw [hg] at h
      dsimp only at h
      repeat' split at h
      all_goals exact absurd h (by simp)
    case isFalse h2 =>
      split at h
      case isTrue h3 =>
        obtain ⟨seg, hg⟩ :=
          pySplit_get_one_of_mem (mem_of_isPrefixOf h3 '=' (by decide))
        rw [hg] at h
        dsimp only at h
        repeat' split at h
        all_goals exact absurd h (by simp)
      case isFalse h3 => exact absurd h (by simp)

theorem stdoutStepE_cases {dur : ℚ} {last st' : Option ConversionProgress}
    {line : List Char} {evs : List ConversionProgress}
    (h : stdoutStepE dur last line = .ok (st', evs)) :
    (st' = last ∧ evs = []) ∨
    (∃ t, 0 < dur ∧
      st' = some ⟨min (t / dur * 100) 100, [], [], [], t, dur⟩ ∧
      evs = [⟨min (t / dur * 100) 100, [], [], [], t, dur⟩]) ∨
    (∃ q p, last = some q ∧ st' = some p ∧ evs = [p] ∧
      p.percent = q.percent ∧ p.current_time = q.current_time ∧
      p.total_duration = q.total_duration ∧ p.fps = q.fps ∧
      (p.eta = q.eta ∨ (0 < dur ∧ ∃ sv, 0 < sv ∧
        0 < (dur - q.current_time) / sv ∧
        p.eta = fmtMinSec ((dur - q.current_time) / sv)))) ∨
    (∃ q v, last = some q ∧ st' = some { q with fps := v } ∧ evs = []) := by
  cases last with
  | none =>
    unfold stdoutStepE at h
    split at h
    case isTrue h1 =>
      split at h
      case h_1 => exact absurd h (by simp)
      case h_2 seg hseg =>
        dsimp only at h
        split at h
        case isTrue hcond =>
          split at h
          case isTrue hlen =>
            split at h
            case h_1 =>
              split at h
              case isTrue hov =>
                split at h
                case isTrue hdur =>
                  simp only [Except.ok.injEq, Prod.mk.injEq] at h
                  exact Or.inr (Or.inl ⟨_, hdur, h.1.symm, h.2.symm⟩)
                case isFalse hdur =>
                  simp only [Except.ok.injEq, Prod.mk.injEq] at h
                  exact Or.inl ⟨h.1.symm, h.2.symm⟩
              case isFalse hov => exact absurd h (by simp)
            case h_2 =>
              simp only [Except.ok.injEq, Prod.mk.injEq] at h
              exact Or.inl ⟨h.1.symm, h.2.symm⟩
          case isFalse hlen =>
            simp only [Except.ok.injEq, Prod.mk.injEq] at h
            exact Or.inl ⟨h.1.symm, h.2.symm⟩
        case isFalse hcond =>
          simp only [Except.ok.injEq, Prod.mk.injEq] at h
          exact Or.inl ⟨h.1.symm, h.2.symm⟩
    case isFalse h1 =>
      split at h
      case isTrue h2 =>
        split at h
        case h_1 => exact absurd h (by simp)
        case h_2 seg hseg =>
          dsimp only at h
          simp only [Except.ok.injEq, Prod.mk.injEq] at h
          exact Or.inl ⟨h.1.symm, h.2.symm⟩
      case isFalse h2 =>
        split at h
        case isTrue h3 =>
          split at h
          case h_1 => exact absurd h (by simp)
          case h_2 seg hseg =>
            dsimp only at h
            simp only [Except.ok.injEq, Prod.mk.injEq] at h
            exact Or.inl ⟨h.1.symm, h.2.symm⟩
        case isFalse h3 =>
          simp only [Except.ok.injEq, Prod.mk.injEq] at h
          exact Or.inl ⟨h.1.symm, h.2.symm⟩
  | some q =>
    unfold stdoutStepE at h
    split at h
    case isTrue h1 =>
      split at h
      case h_1 => exact absurd h (by simp)
      case h_2 seg hseg =>
        dsimp only at h
        split at h
        case isTrue hcond =>
          split at h
          case isTrue hlen =>
            split at h
            case h_1 =>
              split at h
              case isTrue hov =>
                split at h
                case isTrue hdur =>
                  simp only [Except.ok.injEq, Prod.mk.injEq] at h
                  exact Or.inr (Or.inl ⟨_, hdur, h.1.symm, h.2.symm⟩)
                case isFalse hdur =>
                  simp only [Except.ok.injEq, Prod.mk.injEq] at h
                  exact Or.inl ⟨h.1.symm, h.2.symm⟩
              case isFalse hov => exact absurd h (by simp)
            case h_2 =>
              simp only [Except.ok.injEq, Prod.mk.injEq] at h
              exact Or.inl ⟨h.1.symm, h.2.symm⟩
          case isFalse hlen =>
            simp only [Except.ok.injEq, Prod.mk.injEq] at h
            exact Or.inl ⟨h.1.symm, h.2.symm⟩
        case isFalse hcond =>
          simp only [Except.ok.injEq, Prod.mk.injEq] at h
          exact Or.inl ⟨h.1.symm, h.2.symm⟩
    case isFalse h1 =>
      split at h
      case isTrue h2 =>
        split at h
        case h_1 => exact absurd h (by simp)
        case h_2 seg hseg =>
          dsimp only at h
          split at h
          case isTrue hcond =>
            split at h
            case h_1 =>
              split at h
              case isTrue hpos =>
                split at h
                case isTrue hrem =>
                  simp only [Except.ok.injEq, Prod.mk.injEq] at h
                  exact Or.inr (Or.inr (Or.inl ⟨q, _, rfl, h.1.symm, h.2.symm,
                    rfl, rfl, rfl, rfl, Or.inr ⟨hpos.2, _, hpos.1, hrem, rfl⟩⟩))
                case isFalse hrem =>
                  simp only [Except.ok.injEq, Prod.mk.injEq] at h
                  exact Or.inr (Or.inr (Or.inl ⟨q, _, rfl, h.1.symm, h.2.symm,
                    rfl, rfl, rfl, rfl, Or.inl rfl⟩))
              case isFalse hpos =>
                simp only [Except.ok.injEq, Prod.mk.injEq] at h
                exact Or.inr (Or.inr (Or.inl ⟨q, _, rfl, h.1.symm, h.2.symm,
                  rfl, rfl, rfl, rfl, Or.inl rfl⟩))
            case h_2 =>
              simp only [Except.ok.injEq, Prod.mk.injEq] at h
              exact Or.inr (Or.inr (Or.inl ⟨q, _, rfl, h.1.symm, h.2.symm,
                rfl, rfl, rfl, rfl, Or.inl rfl⟩))
          case isFalse hcond =>
            simp only [Except.ok.injEq, Prod.mk.injEq] at h
            exact Or.inl ⟨h.1.symm, h.2.symm⟩
      case isFalse h2 =>
        split at h
        case isTrue h3 =>
          split at h
          case h_1 => exact absurd h (by simp)
          case h_2 seg hseg =>
            dsimp only at h
            split at h
            case isTrue hcond =>
              simp only [Except.ok.injEq, Prod.mk.injEq] at h
              exact Or.inr (Or.inr (Or.inr ⟨q, _, rfl, h.1.symm, h.2.symm⟩))
            case isFalse hcond =>
              simp only [Except.ok.injEq, Prod.mk.injEq] at h
              exact Or.inl ⟨h.1.symm, h.2.symm⟩
        case isFalse h3 =>
          simp only [Except.ok.injEq, Prod.mk.injEq] at h
          exact Or.inl ⟨h.1.symm, h.2.symm⟩

/-! ### C4 -/

/-- C4 counterexample: the line `time=00:00:01.5` has fractional part `.5`
(half a second), yet the parser reports a current_time of exactly 1 second —
a one-digit fraction contributes 0, not its value. -/
theorem parse_time_fraction_cex :
    (parse_ffmpeg_progress ("time=00:00:01.5".data) 0).map (fun p => p.current_time) =
        some 1 ∧
      (1 : ℚ) ≠ 1 + 5 / 10 := by
  constructor
  · have hst : searchTime ("time=00:00:01.5".data) =
        some (("00".data), ("00".data), ("01".data), ("5".data)) := by rfl
    have h := parse_spec 0 hst
    unfold parse_ffmpeg_progress
    rw [h]
    dsimp only
    rw [Option.map_some']
    have h0 : digitsVal ("00".data) = 0 := by decide
    have h1 : digitsVal ("01".data) = 1 := by decide
    have hlen : ¬(2 ≤ "5".data.length) := by decide
    simp only [timeVal, h0, h1, if_neg hlen]
    norm_num
  · norm_num

/-- C4 (amended): for every line on which the time regex matches with groups
`g1`-`g4`, a fragment is produced whose current_time is
hours·3600 + minutes·60 + seconds plus centiseconds/100, the centiseconds
being the value of the FIRST TWO digits of the fractional group — a
one-digit fraction contributes 0 and digits beyond the second are ignored.
In particular `time=12:34:56.78` yields 12·3600 + 34·60 + 56.78 (see the
witness). -/
theorem parse_time_amended (line : List Char) (dur : ℚ) (g1 g2 g3 g4 : List Char)
    (hst : searchTime line = some (g1, g2, g3, g4)) :
    ∃ p, parse_ffmpeg_progress line dur = some p ∧
      p.current_time = (digitsVal g1 : ℚ) * 3600 + (digitsVal g2 : ℚ) * 60 +
        (digitsVal g3 : ℚ) +
        (if 2 ≤ g4.length then (digitsVal (g4.take 2) : ℚ) else 0) / 100 := by
  refine ⟨⟨percentOf dur (timeVal g1 g2 g3 g4), speedField line, fpsField line,
    etaField line dur (timeVal g1 g2 g3 g4), timeVal g1 g2 g3 g4, dur⟩, ?_, rfl⟩
  unfold parse_ffmpeg_progress
  rw [parse_spec dur hst]

/-- C4 witness: the amended theorem applied to `time=12:34:56.78` gives
current_time = 45296.78 = 12·3600 + 34·60 + 56.78. -/
theorem parse_time_amended_witness :
    (parse_ffmpeg_progress ("time=12:34:56.78".data) 0).map (fun p => p.current_time) =
      some ((12 : ℚ) * 3600 + 34 * 60 + 56 + 78 / 100) := by
  obtain ⟨p, hp, hct⟩ := parse_time_amended ("time=12:34:56.78".data) 0 ("12".data)
    "34".data ("56".data) "78".data (by rfl)
  rw [hp, Option.map_some', hct]
  have h12 : digitsVal ("12".data) = 12 := by decide
  have h34 : digitsVal ("34".data) = 34 := by decide
  have h56 : digitsVal ("56".data) = 56 := by decide
  have h78 : digitsVal (List.take 2 ("78".data)) = 78 := by decide
  have hlen : (2 : ℕ) ≤ "78".data.length := by decide
  rw [h12, h34, h56, if_pos hlen, h78]
  norm_num

/-! ### C5 -/

theorem timeVal_nonneg (g1 g2 g3 g4 : List Char) : 0 ≤ timeVal g1 g2 g3 g4 := by
  unfold timeVal
  have h4 : (0 : ℚ) ≤ (if 2 ≤ g4.length then (digitsVal (g4.take 2) : ℚ) else 0) := by
    split
    · exact Nat.cast_nonneg _
    · exact le_refl 0
  refine add_nonneg (add_nonneg (add_nonneg ?_ ?_) ?_) (div_nonneg h4 (by norm_num))
  · exact mul_nonneg (Nat.cast_nonneg _) (by norm_num)
  · exact mul_nonneg (Nat.cast_nonneg _) (by norm_num)
  · exact Nat.cast_nonneg _

theorem percentOf_bounds (dur : ℚ) {t : ℚ} (ht : 0 ≤ t) :
    0 ≤ percentOf dur t ∧ percentOf dur t ≤ 100 := by
  unfold percentOf
  split
  case isTrue hdur =>
    exact ⟨le_min (mul_nonneg (div_nonneg ht hdur.le) (by norm_num)) (by norm_num),
      min_le_right _ _⟩
  case isFalse hdur => exact ⟨le_refl 0, by norm_num⟩

theorem parse_percent_bounds {line : List Char} {dur : ℚ} {p : ConversionProgress}
    (h : parse_ffmpeg_progress line dur = some p) :
    0 ≤ p.percent ∧ p.percent ≤ 100 := by
  unfold parse_ffmpeg_progress at h
  cases hst : searchTime line with
  | none =>
    unfold parse_ffmpeg_progressE at h
    rw [hst] at h
    exact absurd h (by simp)
  | some g =>
    obtain ⟨g1, g2, g3, g4⟩ := g
    rw [parse_spec dur hst] at h
    dsimp only at h
    rw [Option.some.injEq] at h
    subst h
    exact percentOf_bounds dur (timeVal_nonneg g1 g2 g3 g4)

/-- One structured-protocol step keeps the percent invariant: every state and
every emitted event has percent ≤ 100, and percent ≥ 0 provided its
current_time is ≥ 0. -/
theorem stdoutStep_percent_inv {dur : ℚ} {last st' : Option ConversionProgress}
    {line : List Char} {evs : List ConversionProgress}
    (h : stdoutStepE dur last line = .ok (st', evs))
    (hlast : ∀ p, last = some p → p.percent ≤ 100 ∧ (0 ≤ p.current_time → 0 ≤ p.percent)) :
    (∀ p, st' = some p → p.percent ≤ 100 ∧ (0 ≤ p.current_time → 0 ≤ p.percent)) ∧
    (∀ p ∈ evs, p.percent ≤ 100 ∧ (0 ≤ p.current_time → 0 ≤ p.percent)) := by
  rcases stdoutStepE_cases h with ⟨rfl, rfl⟩ | ⟨t, hdur, rfl, rfl⟩ |
    ⟨q, p, rfl, rfl, rfl, hpc, hct, hdur2, hfps, heta⟩ | ⟨q, v, rfl, rfl, rfl⟩
  · exact ⟨hlast, by simp⟩
  · have hbound : min (t / dur * 100) 100 ≤ 100 := min_le_right _ _
    have hpos : 0 ≤ t → 0 ≤ min (t / dur * 100) 100 := fun h0 =>
      le_min (mul_nonneg (div_nonneg h0 hdur.le) (by norm_num)) (by norm_num)
    constructor
    · intro r hr
      rw [Option.some.injEq] at hr
      subst hr
      exact ⟨hbound, hpos⟩
    · intro r hr
      rw [List.mem_singleton] at hr
      subst hr
      exact ⟨hbound, hpos⟩
  · have hq := hlast q rfl
    have hp : p.percent ≤ 100 ∧ (0 ≤ p.current_time → 0 ≤ p.percent) := by
      rw [hpc, hct]
      exact hq
    constructor
    · intro r hr
      rw [Option.some.injEq] at hr
      subst hr
      exact hp
    · intro r hr
      rw [List.mem_singleton] at hr
      subst hr
      exact hp
  · have hq := hlast q rfl
    refine ⟨?_, by simp⟩
    intro r hr
    rw [Option.some.injEq] at hr
    subst hr
    exact hq

theorem stdoutLoop_percent_inv (dur : ℚ) (lines : List (List Char)) :
    ∀ last, (∀ p, last = some p → p.percent ≤ 100 ∧ (0 ≤ p.current_time → 0 ≤ p.percent)) →
    ∀ st' evs, stdoutLoopE dur last lines = .ok (st', evs) →
    (∀ p, st' = some p → p.percent ≤ 100 ∧ (0 ≤ p.current_time → 0 ≤ p.percent)) ∧
    (∀ p ∈ evs, p.percent ≤ 100 ∧ (0 ≤ p.current_time → 0 ≤ p.percent)) := by
  induction lines with
  | nil =>
    intro last hlast st' evs h
    rw [stdoutLoopE] at h
    simp only [Except.ok.injEq, Prod.mk.injEq] at h
    obtain ⟨h1, h2⟩ := h
    subst h1; subst h2
    exact ⟨hlast, by simp⟩
  | cons line rest ih =>
    intro last hlast st' evs h
    rw [stdoutLoopE] at h
    cases hs : stdoutStepE dur last line with
    | error e => rw [hs] at h; exact absurd h (by simp)
    | ok r =>
      obtain ⟨last1, evs1⟩ := r
      rw [hs] at h
      dsimp only at h
      cases hr : stdoutLoopE dur last1 rest with
      | error e => rw [hr] at h; exact absurd h (by simp)
      | ok r2 =>
        obtain ⟨last2, evs2⟩ := r2
        rw [hr] at h
        dsimp only at h
        simp only [Except.ok.injEq, Prod.mk.injEq] at h
        obtain ⟨h1, h2⟩ := h
        subst h1; subst h2
        obtain ⟨hstate1, hevs1⟩ := stdoutStep_percent_inv hs hlast
        obtain ⟨hstate2, hevs2⟩ := ih last1 hstate1 last2 evs2 hr
        refine ⟨hstate2, ?_⟩
        intro p hp
        rcases List.mem_append.mp hp with hp | hp
        · exact hevs1 p hp
        · exact hevs2 p hp

set_option maxRecDepth 16384 in
/-- C5 counterexample: on the structured protocol a negative `out_time`
(which Python's `int("-01")` happily parses) produces an event whose percent
is −3600, far below 0 — the code only clamps from above (`min(·, 100)`),
never from below. -/
theorem stdout_percent_negative_cex :
    (stdoutEvents 100 ["out_time=-01:00:00.0".data]).map (fun p => p.percent) =
        [-3600] ∧
      ¬(0 ≤ (-3600 : ℚ)) := by
  constructor
  · have h : (stdoutEvents 100 ["out_time=-01:00:00.0".data]).map (fun p => p.percent) =
        [min (((((-1) * 3600 + 0 * 60 : Int) : ℚ) +
          (((0 : Nat) : ℚ) + ((0 : Nat) : ℚ) / 10 ^ 1)) / 100 * 100) 100] := rfl
    rw [h]
    norm_num [min_def]
  · norm_num

/-- C5 (amended): every event of the diagnostic-line parser has percent in
[0, 100], and the display layer clamps to [0, 100]; events of the
structured-protocol reader are clamped from above only — percent ≤ 100
always, and 0 ≤ percent whenever the reported timestamp is nonnegative (a
negative `out_time` yields a negative percent, see the counterexample). -/
theorem percent_bounds_amended :
    (∀ line dur p, parse_ffmpeg_progress line dur = some p →
      0 ≤ p.percent ∧ p.percent ≤ 100) ∧
    (∀ dur lines, ∀ p ∈ stdoutEvents dur lines,
      p.percent ≤ 100 ∧ (0 ≤ p.current_time → 0 ≤ p.percent)) ∧
    (∀ q, 0 ≤ create_progress_bar_percent q ∧ create_progress_bar_percent q ≤ 100) := by
  refine ⟨fun line dur p h => parse_percent_bounds h, ?_, ?_⟩
  · intro dur lines p hp
    unfold stdoutEvents at hp
    cases hl : stdoutLoopE dur none lines with
    | error e => rw [hl] at hp; simp at hp
    | ok r =>
      obtain ⟨st', evs⟩ := r
      rw [hl] at hp
      dsimp only at hp
      exact (stdoutLoop_percent_inv dur lines none
        (fun p hp0 => absurd hp0 (by simp)) st' evs hl).2 p hp
  · intro q
    unfold create_progress_bar_percent
    exact ⟨le_max_left 0 _, max_le (by norm_num) (min_le_left _ _)⟩

/-- C5 witness: the amended bound applied to the diagnostic scenario line at
duration 100. -/
theorem percent_bounds_amended_witness :
    0 ≤ percentOf 100 (timeVal ("00".data) "00".data ("10".data) "00".data) ∧
      percentOf 100 (timeVal ("00".data) "00".data ("10".data) "00".data) ≤ 100 := by
  have hp : parse_ffmpeg_progress ("time=00:00:10.00".data) 100 =
      some ⟨percentOf 100 (timeVal ("00".data) "00".data ("10".data) "00".data),
        speedField ("time=00:00:10.00".data), fpsField ("time=00:00:10.00".data),
        etaField ("time=00:00:10.00".data) 100
          (timeVal ("00".data) "00".data ("10".data) "00".data),
        timeVal ("00".data) "00".data ("10".data) "00".data, 100⟩ := by
    unfold parse_ffmpeg_progress
    rw [parse_spec 100 (by rfl)]
    rfl
  exact percent_bounds_amended.1 _ 100 _ hp

/-! ### C6 -/

theorem stdoutStepE_dur_zero (line : List Char) :
    stdoutStepE 0 none line = .ok (none, []) ∨
      stdoutStepE 0 none line = .error ("OverflowError".data) := by
  unfold stdoutStepE
  split
  case isTrue h1 =>
    obtain ⟨seg, hg⟩ :=
      pySplit_get_one_of_mem (mem_of_isPrefixOf h1 '=' (by decide))
    rw [hg]
    dsimp only
    split
    case isTrue hcond =>
      split
      case isTrue hlen =>
        split
        case h_1 =>
          split
          case isTrue hov => exact Or.inl (by rw [if_neg (lt_irrefl (0 : ℚ))])
          case isFalse hov => exact Or.inr rfl
        case h_2 => exact Or.inl rfl
      case isFalse hlen => exact Or.inl rfl
    case isFalse hcond => exact Or.inl rfl
  case isFalse h1 =>
    split
    case isTrue h2 =>
      obtain ⟨seg, hg⟩ :=
        pySplit_get_one_of_mem (mem_of_isPrefixOf h2 '=' (by decide))
      rw [hg]
      exact Or.inl rfl
    case isFalse h2 =>
      split
      case isTrue h3 =>
        obtain ⟨seg, hg⟩ :=
          pySplit_get_one_of_mem (mem_of_isPrefixOf h3 '=' (by decide))
        rw [hg]
        exact Or.inl rfl
      case isFalse h3 => exact Or.inl rfl

theorem stdoutLoop_dur_zero (lines : List (List Char)) :
    stdoutLoopE 0 none lines = .ok (none, []) ∨
      stdoutLoopE 0 none lines = .error ("OverflowError".data) := by
  induction lines with
  | nil => exact Or.inl rfl
  | cons line rest ih =>
    rcases stdoutStepE_dur_zero line with hstep | hstep
    · rcases ih with hloop | hloop
      · refine Or.inl ?_
        rw [stdoutLoopE, hstep]
        dsimp only
        rw [hloop]
        rfl
      · refine Or.inr ?_
        rw [stdoutLoopE, hstep]
        dsimp only
        rw [hloop]
    · refine Or.inr ?_
      rw [stdoutLoopE, hstep]

/-- C6: with an unknown duration (total_duration = 0), every fragment of the
diagnostic-line parser has percent 0 and an empty ETA, and the
structured-protocol reader emits no event at all, for every input line on
either stream. -/
theorem duration_zero_no_percent_eta :
    (∀ line p, parse_ffmpeg_progress line 0 = some p →
      p.percent = 0 ∧ p.eta = []) ∧
    (∀ lines, stdoutEvents 0 lines = []) := by
  constructor
  · intro line p h
    unfold parse_ffmpeg_progress at h
    cases hst : searchTime line with
    | none =>
      unfold parse_ffmpeg_progressE at h
      rw [hst] at h
      exact absurd h (by simp)
    | some g =>
      obtain ⟨g1, g2, g3, g4⟩ := g
      rw [parse_spec 0 hst] at h
      dsimp only at h
      rw [Option.some.injEq] at h
      subst h
      constructor
      · show percentOf 0 (timeVal g1 g2 g3 g4) = 0
        unfold percentOf
        rw [if_neg (lt_irrefl (0 : ℚ))]
      · show etaField line 0 (timeVal g1 g2 g3 g4) = []
        unfold etaField
        rw [if_neg (lt_irrefl (0 : ℚ))]
  · intro lines
    unfold stdoutEvents
    rcases stdoutLoop_dur_zero lines with hloop | hloop <;> rw [hloop]

/-- C6 witness: the duration-zero guarantees at the concrete scenario line
and at a concrete structured-protocol session. -/
theorem duration_zero_no_percent_eta_witness :
    (percentOf 0 (timeVal ("00".data) "00".data ("10".data) "00".data) = 0 ∧
      etaField scenarioLine 0 (timeVal ("00".data) "00".data ("10".data) "00".data) = []) ∧
    stdoutEvents 0 ["out_time=00:00:10.000000".data, "speed=2.0x".data] = [] := by
  constructor
  · have hp : parse_ffmpeg_progress scenarioLine 0 =
        some ⟨percentOf 0 (timeVal ("00".data) "00".data ("10".data) "00".data),
          speedField scenarioLine, fpsField scenarioLine,
          etaField scenarioLine 0 (timeVal ("00".data) "00".data ("10".data) "00".data),
          timeVal ("00".data) "00".data ("10".data) "00".data, 0⟩ := by
      unfold parse_ffmpeg_progress
      rw [parse_spec 0 (by rfl)]
      rfl
    exact duration_zero_no_percent_eta.1 scenarioLine _ hp
  · exact duration_zero_no_percent_eta.2 _

/-! ### C7 -/

/-- The ETA field is either empty, or properly derived: duration known, a
speed group matched and parsed positive, remaining time positive. -/
theorem etaField_spec (line : List Char) (dur t : ℚ) :
    etaField line dur t = [] ∨
    (0 < dur ∧ ∃ g sv, searchSpeed line = some g ∧ pyFloat g = some sv ∧ 0 < sv ∧
      0 < (dur - t) / sv ∧ etaField line dur t = fmtMinSec ((dur - t) / sv)) := by
  unfold etaField
  by_cases hdur : dur > 0
  · rw [if_pos hdur]
    cases hsg : searchSpeed line with
    | none => exact Or.inl rfl
    | some g =>
      dsimp only
      cases hpf : pyFloat g with
      | none => exact Or.inl rfl
      | some sv =>
        dsimp only
        by_cases hsv : sv > 0
        · rw [if_pos hsv]
          by_cases hrem : (dur - t) / sv > 0
          · rw [if_pos hrem]
            exact Or.inr ⟨hdur, g, sv, rfl, hpf, hsv, hrem, rfl⟩
          · rw [if_neg hrem]
            exact Or.inl rfl
        · rw [if_neg hsv]
          exact Or.inl rfl
  · rw [if_neg hdur]
    exact Or.inl rfl

theorem fmtMinSec_125 : fmtMinSec 125 = "02:05".data := by
  unfold fmtMinSec
  have h1 : ⌊(125 : ℚ) / 60⌋ = 2 := by norm_num [Int.floor_eq_iff]
  have h2 : ⌊(125 : ℚ)⌋ = 125 := by norm_num
  rw [h1, h2]
  rfl

theorem fmtMinSec_45 : fmtMinSec 45 = "00:45".data := by
  unfold fmtMinSec
  have h1 : ⌊(45 : ℚ) / 60⌋ = 0 := by norm_num [Int.floor_eq_iff]
  have h2 : ⌊(45 : ℚ)⌋ = 45 := by norm_num
  rw [h1, h2]
  rfl

/-- C7: a nonempty ETA is always derived as (total_duration − current_time) /
speed with speed > 0, duration > 0 and a positive remainder, on both the
diagnostic parser and the structured-protocol reader (where an event's ETA
may also be inherited unchanged from the previous event of the block); the
rendering is floor-truncated minutes:seconds, with 125 s ↦ "02:05" and
45 s ↦ "00:45". -/
theorem eta_derivation :
    (∀ line dur p, parse_ffmpeg_progress line dur = some p → p.eta ≠ [] →
      0 < dur ∧ ∃ g sv, searchSpeed line = some g ∧ pyFloat g = some sv ∧ 0 < sv ∧
        0 < (dur - p.current_time) / sv ∧
        p.eta = fmtMinSec ((dur - p.current_time) / sv)) ∧
    (∀ dur last st' evs line, stdoutStepE dur last line = .ok (st', evs) →
      ∀ p ∈ evs, p.eta = [] ∨ ∃ q, last = some q ∧ (p.eta = q.eta ∨
        (0 < dur ∧ ∃ sv, 0 < sv ∧ 0 < (dur - p.current_time) / sv ∧
          p.eta = fmtMinSec ((dur - p.current_time) / sv)))) ∧
    fmtMinSec 125 = "02:05".data ∧ fmtMinSec 45 = "00:45".data := by
  refine ⟨?_, ?_, fmtMinSec_125, fmtMinSec_45⟩
  · intro line dur p h hne
    unfold parse_ffmpeg_progress at h
    cases hst : searchTime line with
    | none =>
      unfold parse_ffmpeg_progressE at h
      rw [hst] at h
      exact absurd h (by simp)
    | some g =>
      obtain ⟨g1, g2, g3, g4⟩ := g
      rw [parse_spec dur hst] at h
      dsimp only at h
      rw [Option.some.injEq] at h
      subst h
      rcases etaField_spec line dur (timeVal g1 g2 g3 g4) with he | he
      · exact absurd he hne
      · exact he
  · intro dur last st' evs line h p hp
    rcases stdoutStepE_cases h with ⟨rfl, rfl⟩ | ⟨t, hdur, rfl, rfl⟩ |
      ⟨q, r, rfl, rfl, rfl, hpc, hct, hdur2, hfps, heta⟩ | ⟨q, v, rfl, rfl, rfl⟩
    · cases hp
    · rw [List.mem_singleton] at hp
      subst hp
      exact Or.inl rfl
    · rw [List.mem_singleton] at hp
      subst hp
      refine Or.inr ⟨q, rfl, ?_⟩
      rcases heta with heta | ⟨hd, sv, hsv, hrem, he⟩
      · exact Or.inl heta
      · rw [hct]
        exact Or.inr ⟨hd, sv, hsv, hrem, he⟩
    · cases hp

/-- C7 witness: on the spec's scenario line
(`... time=00:00:10.00 ... speed=2.0x`) with duration 100, the derivation
conditions hold and the ETA comes out as fmtMinSec((100 − 10)/2) =
fmtMinSec 45 = "00:45". -/
theorem eta_derivation_witness :
    (0 < (100 : ℚ) ∧ ∃ g sv, searchSpeed scenarioLine = some g ∧
      pyFloat g = some sv ∧ 0 < sv ∧
      0 < ((100 : ℚ) - timeVal ("00".data) "00".data ("10".data) "00".data) / sv ∧
      etaField scenarioLine 100 (timeVal ("00".data) "00".data ("10".data) "00".data) =
        fmtMinSec (((100 : ℚ) - timeVal ("00".data) "00".data ("10".data) "00".data) / sv)) ∧
    etaField scenarioLine 100 (timeVal ("00".data) "00".data ("10".data) "00".data) =
      "00:45".data := by
  have ht : timeVal ("00".data) "00".data ("10".data) "00".data = 10 := by
    unfold timeVal
    have h0 : digitsVal ("00".data) = 0 := by decide
    have h10 : digitsVal ("10".data) = 10 := by decide
    have hlen : (2 : ℕ) ≤ "00".data.length := by decide
    rw [h0, h10, if_pos hlen]
    have h00 : digitsVal (List.take 2 ("00".data)) = 0 := by decide
    rw [h00]
    norm_num
  have hsg : searchSpeed scenarioLine = some ("2.0".data) := by rfl
  have hpf : pyFloat ("2.0".data) = some 2 := by
    have h : pyFloat ("2.0".data) =
        some (((2 : Nat) : ℚ) + ((0 : Nat) : ℚ) / 10 ^ 1) := rfl
    rw [h]
    norm_num
  have heta : etaField scenarioLine 100
      (timeVal ("00".data) "00".data ("10".data) "00".data) = fmtMinSec 45 := by
    unfold etaField
    rw [if_pos (by norm_num : (100 : ℚ) > 0), hsg]
    dsimp only
    rw [hpf]
    dsimp only
    rw [if_pos (by norm_num : (2 : ℚ) > 0), ht]
    rw [if_pos (by norm_num : ((100 : ℚ) - 10) / 2 > 0)]
    norm_num
  have hp : parse_ffmpeg_progress scenarioLine 100 =
      some ⟨percentOf 100 (timeVal ("00".data) "00".data ("10".data) "00".data),
        speedField scenarioLine, fpsField scenarioLine,
        etaField scenarioLine 100 (timeVal ("00".data) "00".data ("10".data) "00".data),
        timeVal ("00".data) "00".data ("10".data) "00".data, 100⟩ := by
    unfold parse_ffmpeg_progress
    rw [parse_spec 100 (by rfl)]
    rfl
  have hne : etaField scenarioLine 100
      (timeVal ("00".data) "00".data ("10".data) "00".data) ≠ [] := by
    rw [heta, fmtMinSec_45]
    decide
  constructor
  · exact eta_derivation.1 scenarioLine 100 _ hp hne
  · rw [heta, fmtMinSec_45]

/-! ### C8 -/

set_option maxRecDepth 16384 in
/-- C8 counterexample: a structured-protocol `out_time` line with a 400-digit
hour count raises.  Python's `int()` accepts it (400 ≤ 4300 digits), and at
converter.py 332 the addition `hours*3600 + minutes*60 + seconds` converts
the huge int to a float, raising OverflowError — which the inner
`except (ValueError, IndexError)` does not catch, so the read loop aborts. -/
theorem stdout_overflow_raises_cex :
    stdoutStepE 100 none overflowLine = .error ("OverflowError".data) := by
  rfl

/-- C8 (amended): the diagnostic-line parser never raises, for any line and
duration, and on the structured protocol a step either succeeds or raises
exactly one exception — the uncaught OverflowError of converter.py 332,
which occurs only on an `out_time` line whose hour/minute fields parse to an
int with |hours·3600 + minutes·60| at or beyond the int-to-float overflow
cutoff 2^1024 − 2^970 (≈1.8·10^308); every other field failure is silently
omitted (a fragment is still produced whenever the time marker matches), and
the literal `N/A` token is ignored with the state unchanged. -/
theorem progress_parsing_never_raises :
    (∀ line dur, (parse_ffmpeg_progressE line dur).isOk = true) ∧
    (∀ dur last line, (stdoutStepE dur last line).isOk = true ∨
      stdoutStepE dur last line = .error ("OverflowError".data)) ∧
    (∀ dur last line e, stdoutStepE dur last line = .error e →
      e = "OverflowError".data ∧
      ("out_time=".data).isPrefixOf line = true ∧
      ∃ seg hours minutes,
        (pySplit '=' line).get? 1 = some seg ∧
        pyInt ((pySplit ':' (pyStrip seg)).getD 0 []) = some hours ∧
        pyInt ((pySplit ':' (pyStrip seg)).getD 1 []) = some minutes ∧
        floatOverflowBound ≤ (hours * 3600 + minutes * 60).natAbs) ∧
    (∀ line dur g1 g2 g3 g4, searchTime line = some (g1, g2, g3, g4) →
      ∃ p, parse_ffmpeg_progress line dur = some p) ∧
    (∀ dur last,
      stdoutStepE dur last ("out_time=N/A".data) = .ok (last, []) ∧
      stdoutStepE dur last ("speed=N/A".data) = .ok (last, []) ∧
      stdoutStepE dur last ("fps=N/A".data) = .ok (last, [])) := by
  refine ⟨parseE_isOk, fun dur last line => stdoutStepE_ok_or_overflow dur last line,
    fun dur last line e h => stdoutStepE_error_overflow h, ?_, ?_⟩
  · intro line dur g1 g2 g3 g4 hst
    refine ⟨⟨percentOf dur (timeVal g1 g2 g3 g4), speedField line, fpsField line,
      etaField line dur (timeVal g1 g2 g3 g4), timeVal g1 g2 g3 g4, dur⟩, ?_⟩
    unfold parse_ffmpeg_progress
    rw [parse_spec dur hst]
  · intro dur last
    refine ⟨?_, ?_, ?_⟩ <;> cases last <;> rfl

set_option maxRecDepth 16384 in
/-- C8 witness: the amended guarantees at concrete inputs — the parser on a
truncated marker and a junk speed field, the step dichotomy on a benign
line, the error characterization at the 400-digit-hours line, a fragment
despite an unparsable speed, and the `N/A` token. -/
theorem progress_parsing_never_raises_witness :
    (parse_ffmpeg_progressE ("time=00:00:10. speed=1.2.3x".data) 60).isOk = true ∧
    ((stdoutStepE 60 none ("out_time=garbage".data)).isOk = true ∨
      stdoutStepE 60 none ("out_time=garbage".data) = .error ("OverflowError".data)) ∧
    (("out_time=".data).isPrefixOf overflowLine = true ∧
      ∃ seg hours minutes,
        (pySplit '=' overflowLine).get? 1 = some seg ∧
        pyInt ((pySplit ':' (pyStrip seg)).getD 0 []) = some hours ∧
        pyInt ((pySplit ':' (pyStrip seg)).getD 1 []) = some minutes ∧
        floatOverflowBound ≤ (hours * 3600 + minutes * 60).natAbs) ∧
    (∃ p, parse_ffmpeg_progress ("time=00:00:10.00 speed=1.2.3x".data) 60 = some p) ∧
    stdoutStepE 60 none ("speed=N/A".data) = .ok (none, []) := by
  refine ⟨progress_parsing_never_raises.1 _ 60,
    progress_parsing_never_raises.2.1 60 none _,
    (progress_parsing_never_raises.2.2.1 100 none overflowLine
      ("OverflowError".data) (by rfl)).2,
    progress_parsing_never_raises.2.2.2.1 _ 60 ("00".data) ("00".data) ("10".data)
      ("00".data) (by rfl),
    (progress_parsing_never_raises.2.2.2.2 60 none).2.1⟩

/-! ### C9 -/

/-- C9: the duration probe returns the parsed duration on a clean run and 0
whenever the outcome is indeterminate — the probe subprocess raised, exited
nonzero, or printed something unparsable (raising inside is caught by the
blanket `except Exception` and degrades to 0); and a conversion against a
launched encoder is classified from its exit code and output file alone, for
every probe outcome. -/
theorem duration_probe_contract :
    (∀ msg, get_video_duration (.exn msg) = 0) ∧
    (∀ rc out, rc ≠ 0 → get_video_duration (.completed rc out) = 0) ∧
    (∀ rc out, pyFloat (pyStrip out) = none →
      get_video_duration (.completed rc out) = 0) ∧
    (∀ out v, (pyStrip out).isEmpty = false → pyFloat (pyStrip out) = some v →
      get_video_duration (.completed 0 out) = v) ∧
    (∀ w sz proc, w.statResult = .ok sz → w.launch = .ok proc →
      ∃ o, convert_video w = .ok o ∧
        o.result.success = (decide (proc.returncode = 0) && proc.outputExistsAtEnd)) := by
  refine ⟨fun msg => rfl, ?_, ?_, ?_, ?_⟩
  · intro rc out hrc
    unfold get_video_duration
    dsimp only
    rw [if_neg (fun hand => hrc hand.1)]
  · intro rc out hpf
    unfold get_video_duration
    dsimp only
    split
    case isTrue hcond => rw [hpf]
    case isFalse hcond => rfl
  · intro out v hne hpf
    unfold get_video_duration
    dsimp only
    rw [if_pos ⟨rfl, by rw [hne]; exact Bool.false_ne_true⟩, hpf]
  · intro w sz proc hstat hlaunch
    unfold convert_video
    rw [hstat]
    dsimp only
    rw [hlaunch]
    dsimp only
    by_cases hc : proc.returncode = 0 ∧ proc.outputExistsAtEnd = true
    · rw [if_pos hc]
      exact ⟨_, rfl, by simp [hc.1, hc.2]⟩
    · rw [if_neg hc]
      refine ⟨_, rfl, ?_⟩
      by_cases h1 : proc.returncode = 0
      · have h2 : proc.outputExistsAtEnd = false := by
          cases hex : proc.outputExistsAtEnd
          · rfl
          · exact absurd ⟨h1, hex⟩ hc
        simp [h2]
      · simp [h1]

/-- C9 witness: probe exception, nonzero exit and junk output give 0; a clean
`42` gives 42; and with a launched encoder (worldOk, whose probe succeeded)
the outcome is classified from exit code and file existence. -/
theorem duration_probe_contract_witness :
    get_video_duration (.exn ("boom".data)) = 0 ∧
    get_video_duration (.completed 1 ("100.0".data)) = 0 ∧
    get_video_duration (.completed 0 ("garbage".data)) = 0 ∧
    get_video_duration (.completed 0 ("42".data)) = ((42 : Nat) : ℚ) ∧
    (∃ o, convert_video worldOk = .ok o ∧
      o.result.success = (decide (procOk.returncode = 0) && procOk.outputExistsAtEnd)) := by
  refine ⟨duration_probe_contract.1 _,
    duration_probe_contract.2.1 1 _ (by decide),
    duration_probe_contract.2.2.1 0 _ (by rfl),
    duration_probe_contract.2.2.2.1 _ _ (by rfl) (by rfl),
    duration_probe_contract.2.2.2.2 worldOk 50000000 procOk rfl rfl⟩

/-! ### C1 -/

/-- C1: for every world in which the input size was read and the encoder
subprocess was launched, `convert_video` returns an outcome whose success
flag holds iff the exit code is 0 and the output path exists after the
process terminated, and on success the reported output_size is the size of
the output file. -/
theorem convert_video_success_iff (w : World) (sz : Nat) (proc : ProcWorld)
    (hstat : w.statResult = .ok sz) (hlaunch : w.launch = .ok proc) :
    ∃ o, convert_video w = .ok o ∧
      (o.result.success = true ↔ proc.returncode = 0 ∧ proc.outputExistsAtEnd = true) ∧
      (o.result.success = true → o.result.output_size = proc.outputSizeAtEnd) := by
  unfold convert_video
  rw [hstat]
  dsimp only
  rw [hlaunch]
  dsimp only
  by_cases hc : proc.returncode = 0 ∧ proc.outputExistsAtEnd = true
  · rw [if_pos hc]
    exact ⟨_, rfl, ⟨fun _ => hc, fun _ => rfl⟩, fun _ => rfl⟩
  · rw [if_neg hc]
    exact ⟨_, rfl, ⟨fun hfalse => absurd hfalse (by simp), fun hcc => absurd hcc hc⟩,
      fun hfalse => absurd hfalse (by simp)⟩

/-- C1 witness: the spec's scenario — exit 0, output present with 5,000,000
bytes, input 50,000,000 bytes. -/
theorem convert_video_success_iff_witness :
    ∃ o, convert_video worldOk = .ok o ∧
      (o.result.success = true ↔ procOk.returncode = 0 ∧ procOk.outputExistsAtEnd = true) ∧
      (o.result.success = true → o.result.output_size = procOk.outputSizeAtEnd) :=
  convert_video_success_iff worldOk 50000000 procOk rfl rfl

/-! ### C2 -/

/-- C2 counterexample: the encoder fails (exit 1), the partial output exists,
and the `unlink` raises (its exception is swallowed at converter.py
392-395) — the outcome reports failure yet the output file still exists. -/
theorem convert_video_failure_retains_output_cex :
    (convert_video worldStuckOutput).map (fun o => (o.result.success, o.outputExists)) =
      .ok (false, true) := by
  rfl

/-- C2 (amended): on a reported failure the output path is absent at return
provided every successful launch's unlink call succeeds — the code attempts
the deletion but swallows a deletion failure, which can leave the file
behind (see the counterexample); on a launch failure no output was written. -/
theorem convert_video_failure_deletes_output (w : World) (o : ConvOutcome)
    (hok : convert_video w = .ok o) (hfail : o.result.success = false)
    (hunlink : ∀ proc, w.launch = .ok proc → proc.unlinkOk = true) :
    o.outputExists = false := by
  unfold convert_video at hok
  cases hstat : w.statResult with
  | error e => rw [hstat] at hok; exact absurd hok (by simp)
  | ok sz =>
    rw [hstat] at hok
    dsimp only at hok
    cases hlaunch : w.launch with
    | error e =>
      rw [hlaunch] at hok
      dsimp only at hok
      rw [Except.ok.injEq] at hok
      subst hok
      rfl
    | ok proc =>
      rw [hlaunch] at hok
      dsimp only at hok
      by_cases hc : proc.returncode = 0 ∧ proc.outputExistsAtEnd = true
      · rw [if_pos hc] at hok
        rw [Except.ok.injEq] at hok
        subst hok
        exact absurd hfail (by simp)
      · rw [if_neg hc] at hok
        rw [Except.ok.injEq] at hok
        subst hok
        have hu := hunlink proc hlaunch
        show (if proc.outputExistsAtEnd = true then !proc.unlinkOk else false) = false
        rw [hu]
        split <;> rfl

/-- C2 witness: a failing run (exit 1, partial output present) whose unlink
succeeds — the returned outcome reports failure with no output file left. -/
theorem convert_video_failure_deletes_output_witness :
    (⟨⟨false, "video.avi".data, "video.mp4".data, 50000000, 0, 30,
      errMsgOf procFail.stderrLines⟩, false, []⟩ : ConvOutcome).outputExists = false := by
  have hok : convert_video worldFail = .ok ⟨⟨false, "video.avi".data, "video.mp4".data,
      50000000, 0, 30, errMsgOf procFail.stderrLines⟩, false, []⟩ := by rfl
  exact convert_video_failure_deletes_output worldFail _ hok rfl
    (fun proc hp => by rw [show proc = procFail from (Except.ok.inj hp).symm]; rfl)

/-! ### C3 -/

/-- C3 counterexample: `input_file.stat()` runs at converter.py line 255,
BEFORE the `try:` block that starts at line 278 — when it raises (file
vanished, permission denied), the exception propagates to the caller instead
of being converted into a failure outcome. -/
theorem convert_video_stat_exception_propagates_cex :
    convert_video worldStatRaises =
      .error ("PermissionError: [Errno 13] Permission denied".data) := by
  rfl

/-- C3 (amended): once the input size has been read, `convert_video` never
propagates an exception — every world with a successful `stat` produces an
outcome, and when constructing/launching the subprocess raises the outcome
has success=false and carries the exception text; an exception while reading
the input file's size, however, occurs before the protected block and
propagates (see the counterexample). -/
theorem convert_video_catches_launch_failures (w : World) (sz : Nat)
    (hstat : w.statResult = .ok sz) :
    (convert_video w).isOk = true ∧
    (∀ e, w.launch = .error e → ∃ o, convert_video w = .ok o ∧
      o.result.success = false ∧ o.result.error_message = e) := by
  unfold convert_video
  rw [hstat]
  dsimp only
  cases hlaunch : w.launch with
  | error e =>
    dsimp only
    exact ⟨rfl, fun e2 he2 => by
      rw [Except.error.injEq] at he2
      subst he2
      exact ⟨_, rfl, rfl, rfl⟩⟩
  | ok proc =>
    dsimp only
    constructor
    · by_cases hc : proc.returncode = 0 ∧ proc.outputExistsAtEnd = true
      · rw [if_pos hc]
        rfl
      · rw [if_neg hc]
        rfl
    · intro e2 he2
      exact absurd he2 (by simp)

/-- C3 witness: a world where `Popen` raises (encoder binary missing): the
call still returns an outcome, with success=false and the exception text. -/
theorem convert_video_catches_launch_failures_witness :
    ((convert_video worldLaunchFails).isOk = true) ∧
    (∃ o, convert_video worldLaunchFails = .ok o ∧
      o.result.success = false ∧
      o.result.error_message = "FileNotFoundError: ffmpeg".data) :=
  ⟨(convert_video_catches_launch_failures worldLaunchFails 50000000 rfl).1,
    (convert_video_catches_launch_failures worldLaunchFails 50000000 rfl).2 _ rfl⟩

/-! ### C10 -/

theorem lexLe_total (a : List Char) : ∀ b, lexLe a b || lexLe b a := by
  induction a with
  | nil => intro b; simp [lexLe]
  | cons x xs ih =>
    intro b
    cases b with
    | nil => simp [lexLe]
    | cons y ys =>
      unfold lexLe
      by_cases hxy : (x == y) = true
      · have hyx : (y == x) = true := by
          rw [beq_iff_eq] at hxy ⊢
          exact hxy.symm
        rw [if_pos hxy, if_pos hyx]
        exact ih ys
      · have hyx : ¬(y == x) = true := by
          rw [beq_iff_eq] at hxy ⊢
          exact fun h => hxy h.symm
        rw [if_neg hxy, if_neg hyx]
        have hne : x ≠ y := fun h => hxy (beq_iff_eq.mpr h)
        rcases lt_or_gt_of_ne hne with h | h <;> simp [h]

theorem lexLe_trans (a : List Char) :
    ∀ b c, lexLe a b = true → lexLe b c = true → lexLe a c = true := by
  induction a with
  | nil => intro b c _ _; simp [lexLe]
  | cons x xs ih =>
    intro b c hab hbc
    cases b with
    | nil => simp [lexLe] at hab
    | cons y ys =>
      cases c with
      | nil => simp [lexLe] at hbc
      | cons z zs =>
        unfold lexLe at hab hbc ⊢
        by_cases hxy : (x == y) = true
        · rw [if_pos hxy] at hab
          have hx : x = y := beq_iff_eq.mp hxy
          by_cases hyz : (y == z) = true
          · rw [if_pos hyz] at hbc
            have hy : y = z := beq_iff_eq.mp hyz
            rw [if_pos (beq_iff_eq.mpr (hx.trans hy))]
            exact ih ys zs hab hbc
          · rw [if_neg hyz] at hbc
            have hlt : y < z := of_decide_eq_true hbc
            have hxz : x < z := hx ▸ hlt
            rw [if_neg (by rw [beq_iff_eq]; exact ne_of_lt hxz)]
            exact decide_eq_true hxz
        · rw [if_neg hxy] at hab
          have hlt : x < y := of_decide_eq_true hab
          by_cases hyz : (y == z) = true
          · have hy : y = z := beq_iff_eq.mp hyz
            have hxz : x < z := hy ▸ hlt
            rw [if_neg (by rw [beq_iff_eq]; exact ne_of_lt hxz)]
            exact decide_eq_true hxz
          · rw [if_neg hyz] at hbc
            have hlt2 : y < z := of_decide_eq_true hbc
            have hxz : x < z := lt_trans hlt hlt2
            rw [if_neg (by rw [beq_iff_eq]; exact ne_of_lt hxz)]
            exact decide_eq_true hxz

theorem nameLe_trans (a b c : DirEntry) (hab : nameLe a b = true)
    (hbc : nameLe b c = true) : nameLe a c = true :=
  lexLe_trans _ _ _ hab hbc

theorem nameLe_total (a b : DirEntry) : (nameLe a b || nameLe b a) = true :=
  lexLe_total _ _

unseal List.merge List.mergeSort in
/-- C10 counterexample: two listings of the same directory (two files whose
names differ only by case) produce differently ordered results — the sort
key `name.lower()` ties, and the stable sort then keeps listing order, so
the batch order is NOT independent of the directory listing order. -/
theorem find_avi_files_order_cex :
    (find_avi_files dirUpperFirst).map (fun e => e.name) ≠
        (find_avi_files dirLowerFirst).map (fun e => e.name) ∧
      dirUpperFirst.Perm dirLowerFirst := by
  constructor
  · decide
  · decide

/-- C10 (amended): `find_avi_files` returns exactly the regular-file entries
whose pathlib suffix lowercases to ".avi", as a permutation of the filtered
directory listing sorted ascending by lowercased name — but entries whose
lowercased names coincide stay in listing order (stable sort), so the
resulting order is only deterministic when no two kept files share a
lowercased name (see the counterexample). -/
theorem find_avi_files_amended :
    (∀ entries e, e ∈ find_avi_files entries ↔
      (e ∈ entries ∧ e.isFile = true ∧ lowerStr (pathSuffix e.name) = ".avi".data)) ∧
    (∀ entries, (find_avi_files entries).Pairwise (fun a b => nameLe a b = true)) ∧
    (∀ entries, (find_avi_files entries).Perm (entries.filter isAviFile)) := by
  refine ⟨?_, ?_, fun entries => List.mergeSort_perm _ _⟩
  · intro entries e
    unfold find_avi_files
    rw [(List.mergeSort_perm (entries.filter isAviFile) nameLe).mem_iff,
      List.mem_filter]
    unfold isAviFile
    rw [Bool.and_eq_true, beq_iff_eq]
  · intro entries
    exact List.sorted_mergeSort nameLe_trans nameLe_total _

/-- C10 witness: the amended characterization at a concrete listing. -/
theorem find_avi_files_amended_witness :
    ((⟨"B.AVI".data, true⟩ : DirEntry) ∈ find_avi_files dirMixed ↔
      ((⟨"B.AVI".data, true⟩ : DirEntry) ∈ dirMixed ∧
        (⟨"B.AVI".data, true⟩ : DirEntry).isFile = true ∧
        lowerStr (pathSuffix (⟨"B.AVI".data, true⟩ : DirEntry).name) = ".avi".data)) ∧
    (find_avi_files dirMixed).Pairwise (fun a b => nameLe a b = true) ∧
    (find_avi_files dirMixed).Perm (dirMixed.filter isAviFile) :=
  ⟨find_avi_files_amended.1 dirMixed _, find_avi_files_amended.2.1 dirMixed,
    find_avi_files_amended.2.2 dirMixed⟩

end Compressor
